import Mathlib

/-!
Verification of the svn-lite checkout client (svnup.c).

The definitions below are shallow embeddings of functions of svnup.c:
byte buffers and C strings are modelled as List Char, pointers into
buffers as natural-number offsets, in-place mutation as functional
update, and fatal exits (errx / err) or undefined behaviour (null
pointer dereference, heap overflow) as error values of Option / Except.
Each definition's doc comment names the C function it embeds.
-/

namespace Svnup

/-- The NUL byte, modelling C string terminators. -/
def nulChar : Char := Char.ofNat 0

/-- Carriage return. -/
def crChar : Char := Char.ofNat 13

/-- Line feed. -/
def lfChar : Char := Char.ofNat 10

/-- Horizontal tab. -/
def tabChar : Char := Char.ofNat 9

/-- Byte read at offset i of a buffer; out-of-bounds reads give NUL,
modelling the terminating NUL svnup.c keeps after every buffer. -/
def charAt (s : List Char) (i : Nat) : Char := s.getD i nulChar

/-- The C string starting at offset i of a buffer: all bytes up to the
first NUL. -/
def cstrFrom (s : List Char) (i : Nat) : List Char :=
  (s.drop i).takeWhile (fun c => c != nulChar)

/-- isxdigit from ctype.h. -/
def isHexChar (c : Char) : Bool :=
  c.isDigit || (decide (Char.ofNat 97 ≤ c) && decide (c ≤ Char.ofNat 102))
    || (decide (Char.ofNat 65 ≤ c) && decide (c ≤ Char.ofNat 70))

/-- strchr(buf + i, c) for c ≠ NUL: offset of the first occurrence of c
at or after offset i, stopping at the first NUL byte (which models the
string terminator); none models a NULL return. -/
def strchrAux : List Char → Char → Option Nat
  | [], _ => none
  | x :: xs, c =>
    if x = nulChar then none
    else if x = c then some 0
    else (strchrAux xs c).map (fun k => k + 1)

/-- strchr relative to a buffer offset. -/
def strchrFrom (b : List Char) (i : Nat) (c : Char) : Option Nat :=
  (strchrAux (b.drop i) c).map (fun k => k + i)

/- ------------------------------------------------------------------
C1: check_md5 (svnup.c:1111) and strip_rev_root_stub (svnup.c:187).
------------------------------------------------------------------ -/

/-- One entry of the dynamic file vector (file_node, svnup.c:107):
only the fields the reconciler reads and writes.  new_file_node
callocs the node, so md5 starts empty and md5_checked / download
start false. -/
structure FileEntry where
  path : List Char
  md5 : List Char
  md5_checked : Bool
  download : Bool
deriving DecidableEq

/-- strip_rev_root_stub (svnup.c:187): if rev_root_stub is set and is a
prefix of the path, drop it, then an optional slash, then the revision
digits. -/
def strip_rev_root_stub (stub : Option (List Char)) (path : List Char) : List Char :=
  match stub with
  | none => path
  | some st =>
    if path.take st.length = st then
      let r := path.drop st.length
      let r2 := if charAt r 0 = Char.ofNat 47 then r.drop 1 else r
      r2.dropWhile Char.isDigit
    else path

/-- The linear scan over the known_files red-black tree in check_md5:
first entry whose path strcmp-equals the key. -/
def treeLookup (known : List (List Char × List Char)) (key : List Char) :
    Option (List Char) :=
  match known with
  | [] => none
  | kv :: rest => if kv.1 = key then some kv.2 else treeLookup rest key

/-- check_md5 (svnup.c:1111).  For a file with a nonempty md5 that has
not been checked yet: mark it checked, default download to true, strip
the rev-root stub from the path (snprintf truncates the stripped path
to 4095 bytes), and set download to false exactly when the manifest
holds that path with the same first 32 md5 bytes (memcmp of 32 bytes). -/
def check_md5 (known : List (List Char × List Char))
    (stub : Option (List Char)) (f : FileEntry) : FileEntry :=
  if f.md5 ≠ [] ∧ f.md5_checked = false then
    let buf := (strip_rev_root_stub stub f.path).take 4095
    match treeLookup known buf with
    | some m =>
      if m.take 32 = f.md5.take 32 then
        { f with md5_checked := true, download := false }
      else
        { f with md5_checked := true, download := true }
    | none => { f with md5_checked := true, download := true }
  else f

/-- The reconciliation pass in main (svnup.c:2536, 2638): check_md5 runs
over the whole file vector. -/
def reconcile (known : List (List Char × List Char))
    (stub : Option (List Char)) (files : List FileEntry) : List FileEntry :=
  files.map (check_md5 known stub)

/- ------------------------------------------------------------------
C2: the body-extraction / MD5-verification loop of get_files
(svnup.c:1890-1968).
------------------------------------------------------------------ -/

/-- One downloaded entry as seen by the get_files loop: the md5 the
server reported, the extracted body, and the download flag. -/
structure FetchItem where
  path : List Char
  md5 : List Char
  body : List Char
  download : Bool
deriving DecidableEq

/-- The errx format string of svnup.c:1954 (with its trailing newline). -/
def md5MismatchMsg (should got : List Char) : List Char :=
  "MD5 checksum mismatch: should be ".data ++ should ++
    ", calculated ".data ++ got ++ [lfChar]

/-- The per-file loop of get_files (svnup.c:1890): entries are given in
processing order; entries with download == 0 are skipped; each remaining
entry's body md5 is compared with the reported md5 (strncmp of the two
33-byte strings); on the first mismatch the loop exits fatally with the
errx message, files saved before that point stay saved; a matching entry
is saved.  Result: the saved paths in processing order, and the fatal
message if any.  md5sum (an external primitive) is a parameter h. -/
def getFilesBodyPass (h : List Char → List Char) :
    List FetchItem → List (List Char) → List (List Char) × Option (List Char)
  | [], acc => (acc.reverse, none)
  | it :: rest, acc =>
    if it.download = false then getFilesBodyPass h rest acc
    else if it.md5 = h it.body then getFilesBodyPass h rest (it.path :: acc)
    else (acc.reverse, some (md5MismatchMsg it.md5 (h it.body)))

/- ------------------------------------------------------------------
C3: the paren-depth scanner of process_command_svn (svnup.c:652-711).
------------------------------------------------------------------ -/

/-- Length of the run of decimal digits starting at offset i. -/
def digitRun (s : List Char) (i : Nat) : Nat :=
  ((s.drop i).takeWhile Char.isDigit).length

/-- atoi of the digit run starting at offset i. -/
def decVal (s : List Char) (i : Nat) : Nat :=
  ((s.drop i).takeWhile Char.isDigit).foldl
    (fun a c => a * 10 + (c.toNat - 48)) 0

/-- Length of the run of non-paren characters starting at offset i
(the while(*q != lparen) advance after a group closes). -/
def parenRun (s : List Char) (i : Nat) : Nat :=
  ((s.drop i).takeWhile (fun c => c != Char.ofNat 40)).length

/-- Effect of one scanned character of the current read chunk on the
paren depth (svnup.c:665-690).  Returns (di, count1): the scanner's
cursor moves from i to i + di before the loop's own increment, and the
depth becomes count1.  A left paren probes for a size-prefixed literal
"( N:" wholly inside the chunk; when found, the cursor jumps to the
colon, and past the N payload bytes only when check+skip is still short
of the chunk end. -/
def charStep (s : List Char) (i : Nat) (count : Int) : Nat × Int :=
  if charAt s i = Char.ofNat 41 then (0, count - 1)
  else if charAt s i = Char.ofNat 40 then
    if i + 3 < s.length ∧ charAt s (i+1) = Char.ofNat 32 ∧
        (charAt s (i+2)).isDigit = true then
      if i + 2 + digitRun s (i+2) < s.length ∧
          charAt s (i + 2 + digitRun s (i+2)) = Char.ofNat 58 then
        if i + 2 + digitRun s (i+2) + (decVal s (i+2) + 1) < s.length then
          (2 + digitRun s (i+2) + decVal s (i+2) + 1, count + 1)
        else (2 + digitRun s (i+2), count + 1)
      else (0, count + 1)
    else (0, count + 1)
  else (0, count)

/-- Group-boundary handling after one character (svnup.c:695-709): when
the depth is zero the group counter advances and the cursor skips to
just before the next left paren of the chunk.  Returns (dj, group2):
the cursor then moves from i1 to i1 + 1 + dj. -/
def groupStep (s : List Char) (i1 : Nat) (count1 : Int) (group : Nat) :
    Nat × Nat :=
  if count1 = 0 then
    if i1 + 1 < s.length then (1 + parenRun s (i1 + 2), group + 1)
    else (1, group + 1)
  else (0, group)

/-- The do-while scan of one read chunk (svnup.c:665-711), cursor at i,
running paren depth and group count carried along.  Fuel is structural;
scanChunk passes s.length, which bounds the iteration count since the
cursor strictly advances. -/
def scanFromF : Nat → List Char → Nat → Int → Nat → Int × Nat
  | 0, _, _, count, group => (count, group)
  | f+1, s, i, count, group =>
    if i < s.length then
      scanFromF f s
        (i + (charStep s i count).1 + 1 +
          (groupStep s (i + (charStep s i count).1) (charStep s i count).2 group).1)
        (charStep s i count).2
        (groupStep s (i + (charStep s i count).1) (charStep s i count).2 group).2
    else (count, group)

/-- Effect of one read chunk on (depth, groups) in process_command_svn
with expected_bytes == 0 (svnup.c:652-711): a chunk whose second byte is
NUL (in particular any single-byte read) is appended without scanning;
otherwise a leading space with depth 0 is consumed first. -/
def scanChunk (st : Int × Nat) (s : List Char) : Int × Nat :=
  if s.length ≤ 1 ∨ charAt s 1 = nulChar then st
  else if st.1 = 0 ∧ charAt s 0 = Char.ofNat 32 then
    scanFromF s.length s 1 st.1 st.2
  else scanFromF s.length s 0 st.1 st.2

/-- The whole response stream as the scanner sees it: depth and group
count persist across the successive read chunks of one command. -/
def scanStream (chunks : List (List Char)) : Int × Nat :=
  chunks.foldl scanChunk (0, 0)

/- ------------------------------------------------------------------
C4: the chunked-transfer dechunking loop of process_command_http
(svnup.c:902-947).
------------------------------------------------------------------ -/

/-- strstr(buf, CRLF): offset of the first CRLF, stopping at NUL. -/
def strstrCrlf : List Char → Option Nat
  | [] => none
  | c :: rest =>
    if c = nulChar then none
    else if c = crChar ∧ charAt rest 0 = lfChar then some 0
    else (strstrCrlf rest).map (fun k => k + 1)

/-- Value of one lowercase hex digit character (after isHexChar). -/
def hexDigitVal (c : Char) : Nat :=
  if c.isDigit then c.toNat - 48
  else if decide (Char.ofNat 97 ≤ c) && decide (c ≤ Char.ofNat 102) then c.toNat - 87
  else c.toNat - 55

/-- strtol(buf + i, NULL, 16) on a buffer position that starts with hex
digits: value of the hex-digit run at offset i. -/
def hexValAt (s : List Char) (i : Nat) : Nat :=
  ((s.drop i).takeWhile isHexChar).foldl (fun a c => 16 * a + hexDigitVal c) 0

/-- The hex digit character sprintf %x produces for one value < 16. -/
def hexDigitChar (k : Nat) : Char :=
  if k < 10 then Char.ofNat (48 + k) else Char.ofNat (87 + k)

/-- Helper for hexStr, with structural fuel (fuel n suffices for n). -/
def hexStrAux : Nat → Nat → List Char
  | 0, _ => []
  | _+1, 0 => []
  | f+1, n+1 => hexStrAux f ((n+1) / 16) ++ [hexDigitChar ((n+1) % 16)]

/-- snprintf %x: minimal lowercase hex rendering of a number. -/
def hexStr (n : Nat) : List Char :=
  if n = 0 then [Char.ofNat 48] else hexStrAux n n

/-- The while loop at svnup.c:908-947 that dismantles chunked transfer
encoding in place, on a fully buffered response.  buf is the response
buffer, m2 the marker2 offset (at the hex size digits; loop entry sets
it to the offset just past the header CRLFCRLF), first the first_chunk
flag.  Each round: find the next CRLF from m2 (exit when none), parse
the chunk size in hex, step m2 back 2 to the CRLF preceding the digits,
recompute the separator "CRLF hex CRLF" via sprintf %x to get gap, stop
if the chunk would overrun the buffer; for the first chunk the separator
is kept and skipped, for later chunks the gap bytes are memmoved out;
a size-0 chunk ends the body. -/
def dechunkLoop : Nat → List Char → Nat → Bool → List Char
  | 0, buf, _, _ => buf
  | f+1, buf, m2, first =>
    match strstrCrlf (buf.drop m2) with
    | none => buf
    | some _ =>
      if buf.length < (m2 - 2) + hexValAt buf m2 + (2 + (hexStr (hexValAt buf m2)).length + 2) then buf
      else if first then
        dechunkLoop f buf
          ((m2 - 2) + hexValAt buf m2 + (2 + (hexStr (hexValAt buf m2)).length + 2) + 2) false
      else
        if hexValAt buf m2 = 0 then
          buf.take (m2 - 2) ++ buf.drop ((m2 - 2) + (2 + (hexStr (hexValAt buf m2)).length + 2))
        else
          dechunkLoop f
            (buf.take (m2 - 2) ++ buf.drop ((m2 - 2) + (2 + (hexStr (hexValAt buf m2)).length + 2)))
            ((m2 - 2) + hexValAt buf m2 + 2) false

/-- Dechunking entry point: marker2 starts at the body (just past the
CRLFCRLF ending the headers), first_chunk is set.  The fuel bounds the
iteration count; buf.length + 1 always suffices since every round either
shortens the buffer by at least 5 bytes or is the single first-chunk
round. -/
def dechunkBody (buf : List Char) (bodyStart : Nat) : List Char :=
  dechunkLoop (buf.length + 1) buf bodyStart true

/-- Canonical chunked transfer encoding of a list of chunk payloads:
each chunk is "size-in-hex CRLF payload CRLF", ended by "0 CRLF CRLF". -/
def encodeChunks : List (List Char) → List Char
  | [] => hexStr 0 ++ [crChar, lfChar] ++ [crChar, lfChar]
  | p :: ps => hexStr p.length ++ [crChar, lfChar] ++ p ++ [crChar, lfChar] ++ encodeChunks ps

/- ------------------------------------------------------------------
C5: load_known_files (svnup.c:2259), manifest parse loop at 2290-2300.
------------------------------------------------------------------ -/

/-- RB_INSERT of a {path, md5} node: the red-black tree keeps the
existing node when the path is already present. -/
def rbInsert (acc : List (List Char × List Char)) (path md5 : List Char) :
    List (List Char × List Char) :=
  if acc.any (fun kv => kv.1 == path) then acc else acc ++ [(path, md5)]

/-- The while loop of load_known_files (svnup.c:2290-2300).  b is the
manifest buffer (the file's bytes; svnup.c appends one NUL which charAt
models), pos the value pointer, acc the tree built so far.  Per line:
find the tab (strchr NULL means the following +1 / strchr dereference is
a null-pointer access: error), find the newline after it (strchr NULL
means the *value++ store is through NULL: error), overwrite the newline
with NUL, store NUL at offset pos+32 (writing past the allocation when
pos+32 exceeds the buffer end: error; at exactly the end it hits the
terminator slot), then insert strdup(path), strdup(md5) reading the
mutated buffer.  No validation of the md5 field occurs. -/
def loadLoop : Nat → List Char → Nat → List (List Char × List Char) →
    Except Unit (List (List Char × List Char))
  | 0, _, _, _ => Except.error ()
  | f+1, b, pos, acc =>
    if charAt b pos = nulChar then Except.ok acc
    else
      match strchrFrom b pos tabChar with
      | none => Except.error ()
      | some t =>
        match strchrFrom b (t+1) lfChar with
        | none => Except.error ()
        | some nl =>
          if b.length < pos + 32 then Except.error ()
          else
            loadLoop f ((b.set nl nulChar).set (pos + 32) nulChar) (nl+1)
              (rbInsert acc (cstrFrom ((b.set nl nulChar).set (pos + 32) nulChar) (t+1))
                (cstrFrom ((b.set nl nulChar).set (pos + 32) nulChar) pos))

/-- load_known_files (svnup.c:2259) on the manifest file's bytes. -/
def load_known_files (b : List Char) : Except Unit (List (List Char × List Char)) :=
  loadLoop (b.length + 1) b 0 []

/-- A manifest image: one line md5-field TAB path LF per entry
(entries are (md5field, path) pairs). -/
def encodeManifest : List (List Char × List Char) → List Char
  | [] => []
  | mp :: rest => mp.1 ++ [tabChar] ++ mp.2 ++ [lfChar] ++ encodeManifest rest

/- ------------------------------------------------------------------
C6: the check-path reply test in main (svnup.c:2434-2439).
------------------------------------------------------------------ -/

/-- The guard at svnup.c:2434: errx fires only when BOTH strcmp tests
fail; the checkout proceeds (true) when either the C string at offset 0
equals the success preamble or the C string at offset 23 equals the dir
reply.  resp is the response buffer, in which the scanner has replaced
the space after each group with NUL. -/
def checkPathGuard (resp : List Char) : Bool :=
  decide (cstrFrom resp 0 = "( success ( ( ) 0: ) )".data) ||
  decide (cstrFrom resp 23 = "( success ( dir ) ) ".data)

/- ------------------------------------------------------------------
C7: manifest replacement at the end of main (svnup.c:2758-2761).
------------------------------------------------------------------ -/

/-- The two filesystem names the finalization touches: the manifest at
its final path (path_work/known_files) and the freshly written one at
path_work/known_files.new. -/
structure ManifestFs where
  atFinal : Option (List Char)
  atNew : Option (List Char)
deriving DecidableEq

/-- remove(connection.known_files_old) (svnup.c:2758). -/
def removeOldStep (fs : ManifestFs) : ManifestFs := ⟨none, fs.atNew⟩

/-- rename(known_files_new, known_files_old) (svnup.c:2760): one atomic
step; fails fatally (err) when the source is missing. -/
def renameNewStep (fs : ManifestFs) : Except Unit ManifestFs :=
  match fs.atNew with
  | none => Except.error ()
  | some c => Except.ok ⟨some c, none⟩

/-- The sequence of filesystem states the finalization passes through:
initial, after the remove, after the rename. -/
def finalizeTrace (fs : ManifestFs) : List ManifestFs :=
  fs :: removeOldStep fs ::
    (match renameNewStep (removeOldStep fs) with
     | Except.ok fs2 => [fs2]
     | Except.error _ => [])

/- ------------------------------------------------------------------
C8: the retry counters (svnup.c:605-627 process_command_svn,
832-840 process_command_http, 1352-1392 process_report_svn,
1909-1918 get_files).
------------------------------------------------------------------ -/

/-- One retry loop: a send happens, then each of the given consecutive
failures increments try; a failure with try > 5 afterwards is fatal
(errx) with no further send, otherwise the command is retransmitted.
Returns (number of sends performed, whether the loop ended fatally).
process_command_svn, process_command_http and get_files enter with
try = 0; process_report_svn enters with try = -1. -/
def retrySim : Int → Nat → Nat × Bool
  | _, 0 => (1, false)
  | tryv, n+1 =>
    if tryv + 1 > 5 then (1, true)
    else ((retrySim (tryv + 1) n).1 + 1, (retrySim (tryv + 1) n).2)

/- ------------------------------------------------------------------
C9: sanitize_svn_date (svnup.c:152-161).
------------------------------------------------------------------ -/

/-- sanitize_svn_date (svnup.c:153): strchr the first T and overwrite it
with a space; strchr the first dot after it and overwrite it with NUL
(the store of Z there is immediately overwritten).  When either strchr
returns NULL the very next store dereferences the null pointer:
undefined behaviour, modelled as none — the function has no rejection
path of its own. -/
def sanitize_svn_date (d : List Char) : Option (List Char) :=
  match d.findIdx? (fun c => c == Char.ofNat 84) with
  | none => none
  | some t =>
    match ((d.set t (Char.ofNat 32)).drop (t+1)).findIdx? (fun c => c == Char.ofNat 46) with
    | none => none
    | some k => some ((d.set t (Char.ofNat 32)).take (t + 1 + k))

/- ------------------------------------------------------------------
C10: save_file (svnup.c:1167-1201).
------------------------------------------------------------------ -/

/-- Filesystem effects save_file can perform. -/
inductive FsAction where
  | removed : FsAction
  | symlinked : List Char → FsAction
  | wrote : List Char → Nat → FsAction
deriving DecidableEq

/-- Return value and effects of one save_file call. -/
structure SaveOutcome where
  saved : Bool
  actions : List FsAction
deriving DecidableEq

/-- save_file (svnup.c:1167).  The filesystem-primitive outcomes (stat,
remove, symlink, open) are parameters.  In the special branch the body
must begin with "link "; an existing file is removed first (failure is
errx-fatal); symlink failure is err-fatal — and the saved = 1 assignment
sits after that noreturn err call inside the failure block (svnup.c:1187),
so the success path leaves saved at 0.  The regular branch writes the
body with mode 0755 or 0644 and returns saved = 1. -/
def save_file (special executable : Bool) (body : List Char)
    (fileExists removeFails symlinkFails openFails : Bool) :
    Except (List Char) SaveOutcome :=
  if special then
    if body.take 5 = "link ".data then
      if fileExists ∧ removeFails then
        Except.error ("Please remove the file manually and restart svnup".data)
      else if symlinkFails then Except.error ("Cannot link".data)
      else Except.ok ⟨false,
        (if fileExists then [FsAction.removed] else []) ++ [FsAction.symlinked (body.drop 5)]⟩
    else Except.ok ⟨false, []⟩
  else
    if openFails then Except.error ("write file failure".data)
    else Except.ok ⟨true, [FsAction.wrote body (if executable then 493 else 420)]⟩

/- ==================================================================
Shared helper lemmas.
================================================================== -/

theorem charAt_oob (l : List Char) (i : Nat) (h : l.length ≤ i) : charAt l i = nulChar := by
  simp [charAt, List.getD_eq_getElem?_getD, List.getElem?_eq_none h]

theorem charAt_append_left (X Y : List Char) (i : Nat) (h : i < X.length) :
    charAt (X ++ Y) i = charAt X i := by
  simp [charAt, List.getD_eq_getElem?_getD, List.getElem?_append, h]

theorem charAt_append_right (X Y : List Char) (i : Nat) :
    charAt (X ++ Y) (X.length + i) = charAt Y i := by
  simp [charAt, List.getD_eq_getElem?_getD, List.getElem?_append, Nat.add_sub_cancel_left]

theorem charAt_drop (l : List Char) (i j : Nat) :
    charAt (l.drop i) j = charAt l (i + j) := by
  simp [charAt, List.getD_eq_getElem?_getD, List.getElem?_drop]

theorem takeWhile_append_all (p : Char → Bool) (X R : List Char)
    (hX : ∀ c ∈ X, p c = true) :
    (X ++ R).takeWhile p = X ++ R.takeWhile p := by
  induction X with
  | nil => simp
  | cons x xs ih =>
    have hx : p x = true := hX x (by simp)
    simp only [List.cons_append, List.takeWhile_cons, hx, if_true]
    rw [ih (fun c hc => hX c (by simp [hc]))]

theorem takeWhile_head_false (p : Char → Bool) (c : Char) (R : List Char)
    (hc : p c = false) : (c :: R).takeWhile p = [] := by
  simp [List.takeWhile_cons, hc]

theorem cstr_of_prefix (X R : List Char) (hX : ∀ c ∈ X, c ≠ nulChar) :
    (X ++ nulChar :: R).takeWhile (fun c => c != nulChar) = X := by
  rw [takeWhile_append_all _ X _ (fun c hc => by simp [hX c hc])]
  simp

theorem cstr_of_all (X : List Char) (hX : ∀ c ∈ X, c ≠ nulChar) :
    X.takeWhile (fun c => c != nulChar) = X := by
  induction X with
  | nil => rfl
  | cons x xs ih =>
    have hx := hX x (by simp)
    simp only [List.takeWhile_cons, bne_iff_ne, ne_eq, hx, not_false_eq_true, if_true]
    rw [ih (fun c hc => hX c (by simp [hc]))]

theorem strchrAux_append (X R : List Char) (t : Char) (ht : t ≠ nulChar)
    (hX : ∀ c ∈ X, c ≠ nulChar ∧ c ≠ t) :
    strchrAux (X ++ t :: R) t = some X.length := by
  induction X with
  | nil => simp [strchrAux, ht]
  | cons x xs ih =>
    have hx := hX x (by simp)
    rw [List.cons_append, strchrAux, if_neg hx.1, if_neg hx.2,
      ih (fun c hc => hX c (by simp [hc]))]
    simp [List.length_cons]

theorem strchrAux_none (X : List Char) (t : Char)
    (hX : ∀ c ∈ X, c ≠ t) : strchrAux X t = none := by
  induction X with
  | nil => rfl
  | cons x xs ih =>
    by_cases hx : x = nulChar
    · simp [strchrAux, hx]
    · have hxt := hX x (by simp)
      rw [strchrAux, if_neg hx, if_neg hxt, ih (fun c hc => hX c (by simp [hc]))]
      rfl

theorem treeLookup_mem (l : List (List Char × List Char)) (k v : List Char)
    (h : treeLookup l k = some v) : (k, v) ∈ l := by
  induction l with
  | nil => simp [treeLookup] at h
  | cons kv rest ih =>
    by_cases hk : kv.1 = k
    · simp only [treeLookup, hk, if_true, Option.some.injEq] at h
      rw [← h, ← hk]
      simp
    · simp only [treeLookup, hk, if_false] at h
      exact List.mem_cons_of_mem _ (ih h)

/- ==================================================================
C1: reconciliation invariant.
================================================================== -/

/-- C1, counterexample.  The claim requires download = false to imply an
md5 of 32 hex characters: check_md5 compares raw bytes and validates no
hexness, so a manifest entry of 32 letters z yields download = false
with a non-hex md5; and an entry whose md5 never arrived (empty) keeps
its calloc default download = false even though the manifest has no
entry for its path. -/
theorem C1_counterexample :
    ((check_md5 [("a".data, List.replicate 32 (Char.ofNat 122))] none
        ⟨"a".data, List.replicate 32 (Char.ofNat 122), false, false⟩).download = false ∧
      (List.replicate 32 (Char.ofNat 122)).all isHexChar = false) ∧
    ((check_md5 [] none ⟨"b".data, [], false, false⟩).download = false ∧
      treeLookup [] (strip_rev_root_stub none "b".data) = none) := by
  decide

/-- C1, amended: for a FileEntry with a nonempty 32-byte md5 not yet
checked, against a manifest of 32-byte values and a stripped path short
enough for check_md5's 4096-byte buffer, download = false after
check_md5 exactly when the manifest maps the stripped path to the same
32 bytes (no hex validation occurs); in particular a path absent from
the manifest forces download = true regardless of the local filesystem.
Entries whose md5 is empty are left untouched by check_md5. -/
theorem C1_theorem (known : List (List Char × List Char))
    (stub : Option (List Char)) (e : FileEntry)
    (h1 : e.md5_checked = false) (h2 : e.md5 ≠ [])
    (h3 : e.md5.length = 32)
    (h4 : ∀ kv ∈ known, (kv.2 : List Char).length = 32)
    (h5 : (strip_rev_root_stub stub e.path).length ≤ 4095) :
    ((check_md5 known stub e).download = false ↔
      treeLookup known (strip_rev_root_stub stub e.path) = some e.md5) := by
  have hbuf : (strip_rev_root_stub stub e.path).take 4095 =
      strip_rev_root_stub stub e.path := List.take_of_length_le h5
  rw [check_md5, if_pos ⟨h2, h1⟩]
  simp only [hbuf]
  cases htl : treeLookup known (strip_rev_root_stub stub e.path) with
  | none => simp
  | some m =>
    have hm32 : m.length = 32 := h4 _ (treeLookup_mem _ _ _ htl)
    have hmt : m.take 32 = m := List.take_of_length_le (by omega)
    have het : e.md5.take 32 = e.md5 := List.take_of_length_le (by omega)
    simp only [hmt, het]
    by_cases hme : m = e.md5
    · subst hme; simp
    · simp [hme]

/-- C1, witness for the amended theorem at a concrete manifest. -/
theorem C1_witness :
    (check_md5 [("x".data, List.replicate 32 (Char.ofNat 97))] none
        ⟨"x".data, List.replicate 32 (Char.ofNat 97), false, false⟩).download = false ↔
      treeLookup [("x".data, List.replicate 32 (Char.ofNat 97))]
        (strip_rev_root_stub none "x".data) = some (List.replicate 32 (Char.ofNat 97)) :=
  C1_theorem [("x".data, List.replicate 32 (Char.ofNat 97))] none
    ⟨"x".data, List.replicate 32 (Char.ofNat 97), false, false⟩
    (by decide) (by decide) (by decide)
    (by intro kv hkv; simp at hkv; rw [hkv]; decide) (by decide)

/- ==================================================================
C2: MD5 verification in the body pass of get_files.
================================================================== -/

theorem getFilesBodyPass_go (h : List Char → List Char) (items : List FetchItem) :
    ∀ acc : List (List Char),
    getFilesBodyPass h items acc =
      (acc.reverse ++
        (((items.takeWhile (fun it => !it.download || it.md5 == h it.body)).filter
          (fun it => it.download)).map FetchItem.path),
        (items.find? (fun it => it.download && !(it.md5 == h it.body))).map
          (fun it => md5MismatchMsg it.md5 (h it.body))) := by
  induction items with
  | nil => intro acc; simp [getFilesBodyPass]
  | cons it rest ih =>
    intro acc
    cases hdl : it.download with
    | false =>
      rw [getFilesBodyPass, if_pos hdl, ih]
      simp [List.takeWhile_cons, List.find?_cons, hdl]
    | true =>
      cases hme : it.md5 == h it.body with
      | true =>
        have heq : it.md5 = h it.body := by exact beq_iff_eq.mp hme
        rw [getFilesBodyPass, if_neg (by simp [hdl]), if_pos heq, ih]
        simp [List.takeWhile_cons, List.find?_cons, hdl, hme]
      | false =>
        have hne : ¬ it.md5 = h it.body := by
          intro hc
          rw [hc] at hme
          simp at hme
        rw [getFilesBodyPass, if_neg (by simp [hdl]), if_neg hne]
        simp [List.takeWhile_cons, List.find?_cons, hdl, hme]

/-- C2: in the body pass of get_files, a file is saved exactly when its
download flag is set, its computed MD5 equals the reported one, and no
earlier-processed entry mismatched; the first entry whose computed MD5
differs from the reported one aborts the run fatally with the message
"MD5 checksum mismatch: should be X, calculated Y" and is itself never
saved.  Stated as an exact characterization of the loop's result. -/
theorem C2_theorem (h : List Char → List Char) (items : List FetchItem) :
    getFilesBodyPass h items [] =
      ((((items.takeWhile (fun it => !it.download || it.md5 == h it.body)).filter
          (fun it => it.download)).map FetchItem.path),
        (items.find? (fun it => it.download && !(it.md5 == h it.body))).map
          (fun it => md5MismatchMsg it.md5 (h it.body))) := by
  rw [getFilesBodyPass_go]
  simp

/- ==================================================================
C3: the paren scanner and size-prefixed literals.
================================================================== -/

/-- C3, counterexample.  The claim asserts the skip also works when the
literal does not lie entirely within a single read.  The scanner only
skips when check+skip stays inside the current chunk (svnup.c:683);
split across two reads, the literal ( 4:)))) of the group ( 4:)))) )
is scanned byte by byte, its payload parens corrupt the depth (final
depth -3 instead of 0) and the group is closed prematurely, while the
same bytes in a single read give depth 0 and the correct boundary. -/
theorem C3_counterexample :
    scanStream [("( 4:))".data), (")) )".data)] = (-3, 1) ∧
      scanStream [("( 4:))".data ++ ")) )".data)] = (0, 1) ∧
      "( 4:))".data ++ ")) )".data = "( 4:)))) )".data := by
  decide

/-- C3, amended: the scanner, on meeting ( SP digits : with the colon
inside the current chunk, skips the N payload bytes exactly when the
whole literal lies within the current read chunk — the scan resumes
past the literal with the depth increased by one, for every payload
(parens inside the payload cannot affect the balance); when the literal
overruns the chunk the skip is not performed and the scan resumes at the
first payload byte, so payload bytes are then counted as ordinary
characters. -/
theorem C3_theorem (s : List Char) (i : Nat) (count : Int) (group : Nat) (f : Nat)
    (hO : charAt s i = Char.ofNat 40)
    (hSp : charAt s (i+1) = Char.ofNat 32)
    (hD : (charAt s (i+2)).isDigit = true)
    (hLen : i + 3 < s.length)
    (hQ : i + 2 + digitRun s (i+2) < s.length)
    (hColon : charAt s (i + 2 + digitRun s (i+2)) = Char.ofNat 58)
    (hCnt : count + 1 ≠ 0) :
    (i + 2 + digitRun s (i+2) + (decVal s (i+2) + 1) < s.length →
      scanFromF (f+1) s i count group =
        scanFromF f s (i + 2 + digitRun s (i+2) + decVal s (i+2) + 2) (count + 1) group) ∧
    (¬ i + 2 + digitRun s (i+2) + (decVal s (i+2) + 1) < s.length →
      scanFromF (f+1) s i count group =
        scanFromF f s (i + 2 + digitRun s (i+2) + 1) (count + 1) group) := by
  have hne : charAt s i ≠ Char.ofNat 41 := by rw [hO]; decide
  constructor
  · intro hfit
    have hcs : charStep s i count =
        (2 + digitRun s (i+2) + decVal s (i+2) + 1, count + 1) := by
      rw [charStep, if_neg hne, if_pos hO, if_pos ⟨hLen, hSp, hD⟩,
        if_pos ⟨hQ, hColon⟩, if_pos hfit]
    have hcs1 : (charStep s i count).1 = 2 + digitRun s (i+2) + decVal s (i+2) + 1 := by
      rw [hcs]
    have hcs2 : (charStep s i count).2 = count + 1 := by rw [hcs]
    have hgs1 : (groupStep s (i + (2 + digitRun s (i+2) + decVal s (i+2) + 1))
        (count + 1) group).1 = 0 := by
      rw [groupStep, if_neg hCnt]
    have hgs2 : (groupStep s (i + (2 + digitRun s (i+2) + decVal s (i+2) + 1))
        (count + 1) group).2 = group := by
      rw [groupStep, if_neg hCnt]
    rw [scanFromF, if_pos (show i < s.length by omega), hcs1, hcs2, hgs1, hgs2]
    rw [show i + (2 + digitRun s (i+2) + decVal s (i+2) + 1) + 1 + 0 =
      i + 2 + digitRun s (i+2) + decVal s (i+2) + 2 from by omega]
  · intro hfit
    have hcs : charStep s i count = (2 + digitRun s (i+2), count + 1) := by
      rw [charStep, if_neg hne, if_pos hO, if_pos ⟨hLen, hSp, hD⟩,
        if_pos ⟨hQ, hColon⟩, if_neg hfit]
    have hcs1 : (charStep s i count).1 = 2 + digitRun s (i+2) := by rw [hcs]
    have hcs2 : (charStep s i count).2 = count + 1 := by rw [hcs]
    have hgs1 : (groupStep s (i + (2 + digitRun s (i+2))) (count + 1) group).1 = 0 := by
      rw [groupStep, if_neg hCnt]
    have hgs2 : (groupStep s (i + (2 + digitRun s (i+2))) (count + 1) group).2 = group := by
      rw [groupStep, if_neg hCnt]
    rw [scanFromF, if_pos (show i < s.length by omega), hcs1, hcs2, hgs1, hgs2]
    rw [show i + (2 + digitRun s (i+2)) + 1 + 0 =
      i + 2 + digitRun s (i+2) + 1 from by omega]

/-- C3, witness: the amended theorem applied to the single-read group
( 4:)))) ) at its opening paren: the scan steps straight past the
four-byte payload to offset 9 with depth 1. -/
theorem C3_witness :
    scanFromF 10 ("( 4:)))) )".data) 0 0 0 =
      scanFromF 9 ("( 4:)))) )".data) 9 1 0 := by
  have h := C3_theorem ("( 4:)))) )".data) 0 0 0 9
    (by decide) (by decide) (by decide) (by decide) (by decide) (by decide) (by decide)
  have h2 := h.1 (by decide)
  rw [show (0 + 2 + digitRun ("( 4:)))) )".data) (0+2) + decVal ("( 4:)))) )".data) (0+2) + 2) = 9 from by decide] at h2
  exact h2

/- ==================================================================
C4: dechunking helper lemmas.
================================================================== -/

theorem hexDigitChar_facts : ∀ k, k < 16 →
    isHexChar (hexDigitChar k) = true ∧ hexDigitChar k ≠ crChar ∧
      hexDigitChar k ≠ nulChar ∧ hexDigitVal (hexDigitChar k) = k := by
  decide

theorem hexStrAux_mem : ∀ f n c, c ∈ hexStrAux f n → ∃ k, k < 16 ∧ c = hexDigitChar k := by
  intro f
  induction f with
  | zero => intro n c hc; simp [hexStrAux] at hc
  | succ g ih =>
    intro n c hc
    cases n with
    | zero => simp [hexStrAux] at hc
    | succ m =>
      rw [hexStrAux] at hc
      rcases List.mem_append.mp hc with h1 | h2
      · exact ih _ _ h1
      · refine ⟨(m+1) % 16, Nat.mod_lt _ (by omega), ?_⟩
        simpa using h2

theorem hexStr_mem (n : Nat) (c : Char) (hc : c ∈ hexStr n) :
    ∃ k, k < 16 ∧ c = hexDigitChar k := by
  by_cases hn : n = 0
  · subst hn
    refine ⟨0, by omega, ?_⟩
    simp [hexStr] at hc
    simp [hc, hexDigitChar]
  · rw [hexStr, if_neg hn] at hc
    exact hexStrAux_mem n n c hc

theorem hexStr_no_cr (n : Nat) : ∀ c ∈ hexStr n, c ≠ crChar ∧ c ≠ nulChar := by
  intro c hc
  obtain ⟨k, hk, rfl⟩ := hexStr_mem n c hc
  exact ⟨(hexDigitChar_facts k hk).2.1, (hexDigitChar_facts k hk).2.2.1⟩

theorem hexStr_hex (n : Nat) : ∀ c ∈ hexStr n, isHexChar c = true := by
  intro c hc
  obtain ⟨k, hk, rfl⟩ := hexStr_mem n c hc
  exact (hexDigitChar_facts k hk).1

theorem hexStrAux_val : ∀ f n, n ≤ f →
    (hexStrAux f n).foldl (fun a c => 16 * a + hexDigitVal c) 0 = n := by
  intro f
  induction f with
  | zero =>
    intro n hn
    have : n = 0 := by omega
    subst this
    rfl
  | succ g ih =>
    intro n hn
    cases n with
    | zero => rfl
    | succ m =>
      rw [hexStrAux, List.foldl_append]
      have hdiv : (m + 1) / 16 ≤ g := by
        have := Nat.div_lt_self (show 0 < m + 1 by omega) (show 1 < 16 by omega)
        omega
      rw [ih _ hdiv]
      simp only [List.foldl_cons, List.foldl_nil]
      rw [(hexDigitChar_facts ((m+1) % 16) (Nat.mod_lt _ (by omega))).2.2.2]
      omega

theorem hexStr_val (n : Nat) :
    (hexStr n).foldl (fun a c => 16 * a + hexDigitVal c) 0 = n := by
  by_cases hn : n = 0
  · subst hn; rfl
  · rw [hexStr, if_neg hn]
    exact hexStrAux_val n n (le_refl n)

theorem hexValAt_at (buf : List Char) (m2 n : Nat) (rest : List Char)
    (h : buf.drop m2 = hexStr n ++ crChar :: rest) : hexValAt buf m2 = n := by
  rw [hexValAt, h, takeWhile_append_all _ _ _ (hexStr_hex n),
    takeWhile_head_false _ _ _ (by decide), List.append_nil, hexStr_val]

theorem strstrCrlf_some (X R : List Char) (hX : ∀ c ∈ X, c ≠ crChar ∧ c ≠ nulChar) :
    strstrCrlf (X ++ crChar :: lfChar :: R) = some X.length := by
  induction X with
  | nil =>
    rw [List.nil_append, strstrCrlf, if_neg (by decide),
      if_pos ⟨rfl, by simp [charAt]⟩]
    rfl
  | cons x xs ih =>
    have hx := hX x (by simp)
    rw [List.cons_append, strstrCrlf, if_neg hx.2,
      if_neg (by intro hc; exact hx.1 hc.1),
      ih (fun c hc => hX c (by simp [hc]))]
    simp

theorem drop_after_crlf (A X : List Char) :
    (A ++ [crChar, lfChar] ++ X).drop (A.length + 2) = X := by
  rw [List.append_assoc, List.drop_append 2]
  simp

theorem take_before_crlf (A X : List Char) :
    (A ++ [crChar, lfChar] ++ X).take A.length = A := by
  rw [List.append_assoc]
  exact List.take_left A _

/-- The processing of a chunked body after the first chunk has been
consumed: marker2 sits two bytes past the previous payload end (on the
hex digits of the next chunk size), everything before the separator
preceding marker2 is final, and each remaining separator is excised so
the payloads concatenate; the terminating 0 chunk leaves one CRLF. -/
theorem dechunkLoop_rest : ∀ (ps : List (List Char)) (fuel : Nat) (A : List Char),
    (∀ p ∈ ps, p ≠ []) → fuel ≥ ps.length + 1 →
    dechunkLoop fuel (A ++ [crChar, lfChar] ++ encodeChunks ps) (A.length + 2) false
      = A ++ ps.flatten ++ [crChar, lfChar] := by
  intro ps
  induction ps with
  | nil =>
    intro fuel A hne hfuel
    obtain ⟨f, rfl⟩ : ∃ f, fuel = f + 1 := ⟨fuel - 1, by omega⟩
    have hdrop : (A ++ [crChar, lfChar] ++ encodeChunks []).drop (A.length + 2) =
        encodeChunks [] := drop_after_crlf A _
    have hs : strstrCrlf ((A ++ [crChar, lfChar] ++ encodeChunks []).drop (A.length + 2)) =
        some 1 := by rw [hdrop]; decide
    have hval : hexValAt (A ++ [crChar, lfChar] ++ encodeChunks []) (A.length + 2) = 0 :=
      hexValAt_at _ _ 0 [lfChar, crChar, lfChar] (by rw [hdrop]; decide)
    have hblen : (A ++ [crChar, lfChar] ++ encodeChunks []).length = A.length + 7 := by
      have h5 : (encodeChunks ([] : List (List Char))).length = 5 := by decide
      simp [h5]
    have hm2x : A.length + 2 - 2 = A.length := by omega
    have hdropg : (A ++ [crChar, lfChar] ++ encodeChunks []).drop
        (A.length + (2 + (hexStr 0).length + 2)) = [crChar, lfChar] := by
      rw [List.append_assoc, List.drop_append (2 + (hexStr 0).length + 2)]
      decide
    rw [dechunkLoop, hs]
    simp only [hval, hm2x]
    rw [if_neg (by rw [hblen]; rw [show (hexStr 0).length = 1 from by decide]; omega)]
    rw [if_neg (by simp), if_pos trivial]
    rw [take_before_crlf, hdropg]
    simp
  | cons p ps2 ih =>
    intro fuel A hne hfuel
    obtain ⟨f, rfl⟩ : ∃ f, fuel = f + 1 := ⟨fuel - 1, by omega⟩
    have hp : p ≠ [] := hne p (by simp)
    have hE : encodeChunks (p :: ps2) =
        hexStr p.length ++ crChar :: lfChar ::
          (p ++ ([crChar, lfChar] ++ encodeChunks ps2)) := by
      rw [encodeChunks]
      simp [List.append_assoc]
    have hdrop : (A ++ [crChar, lfChar] ++ encodeChunks (p :: ps2)).drop (A.length + 2) =
        encodeChunks (p :: ps2) := drop_after_crlf A _
    have hs : strstrCrlf ((A ++ [crChar, lfChar] ++ encodeChunks (p :: ps2)).drop
        (A.length + 2)) = some (hexStr p.length).length := by
      rw [hdrop, hE]
      exact strstrCrlf_some _ _ (hexStr_no_cr p.length)
    have hval : hexValAt (A ++ [crChar, lfChar] ++ encodeChunks (p :: ps2))
        (A.length + 2) = p.length :=
      hexValAt_at _ _ p.length (lfChar :: (p ++ ([crChar, lfChar] ++ encodeChunks ps2)))
        (by rw [hdrop, hE])
    have hElen : (encodeChunks (p :: ps2)).length =
        (hexStr p.length).length + 2 + p.length + 2 + (encodeChunks ps2).length := by
      rw [hE]
      simp
      omega
    have hblen : (A ++ [crChar, lfChar] ++ encodeChunks (p :: ps2)).length =
        A.length + 2 + (encodeChunks (p :: ps2)).length := by
      simp
      omega
    have hm2x : A.length + 2 - 2 = A.length := by omega
    have hdropg : (A ++ [crChar, lfChar] ++ encodeChunks (p :: ps2)).drop
        (A.length + (2 + (hexStr p.length).length + 2)) =
        p ++ ([crChar, lfChar] ++ encodeChunks ps2) := by
      rw [List.append_assoc, List.drop_append (2 + (hexStr p.length).length + 2), hE]
      rw [show ([crChar, lfChar] ++ (hexStr p.length ++ crChar :: lfChar ::
          (p ++ ([crChar, lfChar] ++ encodeChunks ps2)))) =
        ([crChar, lfChar] ++ hexStr p.length ++ [crChar, lfChar]) ++
          (p ++ ([crChar, lfChar] ++ encodeChunks ps2)) from by simp]
      exact List.drop_left' (by simp; omega)
    rw [dechunkLoop, hs]
    simp only [hval, hm2x]
    rw [if_neg (by omega)]
    rw [if_neg (by simp)]
    rw [if_neg (by
      intro hc
      exact hp (List.length_eq_zero.mp hc))]
    rw [take_before_crlf, hdropg]
    rw [show A ++ (p ++ ([crChar, lfChar] ++ encodeChunks ps2)) =
      (A ++ p) ++ [crChar, lfChar] ++ encodeChunks ps2 from by simp]
    rw [show A.length + p.length + 2 = (A ++ p).length + 2 from by simp]
    rw [ih f (A ++ p) (fun q hq => hne q (by simp [hq]))
      (by simp only [List.length_cons] at hfuel; omega)]
    simp

/-- C4, counterexample.  The claim says every chunk separator, including
the one before the first chunk, is excised, leaving a body byte-identical
to the payload concatenation.  The first_chunk special case at
svnup.c:924 keeps the first size line: dechunking the chunked body
3|abc|3|def|0 leaves the body 3 CRLF abcdef CRLF, not abcdef. -/
theorem C4_counterexample :
    dechunkBody ("HTTP/1.1 200 OK".data ++ [crChar, lfChar, crChar, lfChar] ++
        ("3".data ++ [crChar, lfChar] ++ "abc".data ++ [crChar, lfChar] ++
          "3".data ++ [crChar, lfChar] ++ "def".data ++ [crChar, lfChar] ++
          "0".data ++ [crChar, lfChar] ++ [crChar, lfChar])) 19
      = "HTTP/1.1 200 OK".data ++ [crChar, lfChar, crChar, lfChar] ++
          ("3".data ++ [crChar, lfChar] ++ "abcdef".data ++ [crChar, lfChar]) ∧
    (dechunkBody ("HTTP/1.1 200 OK".data ++ [crChar, lfChar, crChar, lfChar] ++
        ("3".data ++ [crChar, lfChar] ++ "abc".data ++ [crChar, lfChar] ++
          "3".data ++ [crChar, lfChar] ++ "def".data ++ [crChar, lfChar] ++
          "0".data ++ [crChar, lfChar] ++ [crChar, lfChar])) 19).drop 19
      ≠ "abcdef".data := by
  decide

/-- C4, amended: the dechunking loop excises every CRLF hex CRLF chunk
separator except the one before the first chunk, whose size line it
keeps in place; for any canonically chunked body the resulting buffer is
the headers, the first chunk's size line, then the payloads contiguously
concatenated, then one trailing CRLF — downstream parsing sees the
payloads contiguously, but the body is not byte-identical to a
Content-Length body. -/
theorem C4_theorem (headers : List Char) (ps : List (List Char)) (fuel : Nat)
    (hps : ∀ p ∈ ps, p ≠ []) (hfuel : fuel ≥ ps.length + 1) :
    dechunkLoop fuel
        (headers ++ [crChar, lfChar, crChar, lfChar] ++ encodeChunks ps)
        (headers.length + 4) true
      = headers ++ [crChar, lfChar, crChar, lfChar] ++
          hexStr ((ps.headD []).length) ++ [crChar, lfChar] ++
          ps.flatten ++ [crChar, lfChar] := by
  have hdrop4 : ∀ X : List Char,
      (headers ++ [crChar, lfChar, crChar, lfChar] ++ X).drop (headers.length + 4) = X := by
    intro X
    rw [List.append_assoc, List.drop_append 4]
    simp
  cases ps with
  | nil =>
    obtain ⟨f, rfl⟩ : ∃ f, fuel = f + 1 := ⟨fuel - 1, by omega⟩
    have hs : strstrCrlf ((headers ++ [crChar, lfChar, crChar, lfChar] ++
        encodeChunks []).drop (headers.length + 4)) = some 1 := by
      rw [hdrop4]; decide
    have hval : hexValAt (headers ++ [crChar, lfChar, crChar, lfChar] ++
        encodeChunks []) (headers.length + 4) = 0 :=
      hexValAt_at _ _ 0 [lfChar, crChar, lfChar] (by rw [hdrop4]; decide)
    have hblen : (headers ++ [crChar, lfChar, crChar, lfChar] ++
        encodeChunks []).length = headers.length + 9 := by
      have h5 : (encodeChunks ([] : List (List Char))).length = 5 := by decide
      simp [h5]
    have hm2x : headers.length + 4 - 2 = headers.length + 2 := by omega
    rw [dechunkLoop, hs]
    simp only [hval, hm2x]
    rw [if_neg (by rw [hblen]; rw [show (hexStr 0).length = 1 from by decide]; omega)]
    rw [if_pos trivial]
    have hend : (headers ++ [crChar, lfChar, crChar, lfChar] ++ encodeChunks []).drop
        (headers.length + 2 + 0 + (2 + (hexStr 0).length + 2) + 2) = [] := by
      apply List.drop_eq_nil_of_le
      have h01 : (hexStr 0).length = 1 := by decide
      omega
    cases f with
    | zero =>
      rw [dechunkLoop]
      simp [encodeChunks, List.append_assoc]
    | succ g =>
      rw [dechunkLoop, hend]
      rw [show strstrCrlf [] = none from rfl]
      simp [encodeChunks, List.append_assoc]
  | cons p ps2 =>
    obtain ⟨f, rfl⟩ : ∃ f, fuel = f + 1 := ⟨fuel - 1, by omega⟩
    have hp : p ≠ [] := hps p (by simp)
    have hE : encodeChunks (p :: ps2) =
        hexStr p.length ++ crChar :: lfChar ::
          (p ++ ([crChar, lfChar] ++ encodeChunks ps2)) := by
      rw [encodeChunks]
      simp [List.append_assoc]
    have hs : strstrCrlf ((headers ++ [crChar, lfChar, crChar, lfChar] ++
        encodeChunks (p :: ps2)).drop (headers.length + 4)) =
        some (hexStr p.length).length := by
      rw [hdrop4, hE]
      exact strstrCrlf_some _ _ (hexStr_no_cr p.length)
    have hval : hexValAt (headers ++ [crChar, lfChar, crChar, lfChar] ++
        encodeChunks (p :: ps2)) (headers.length + 4) = p.length :=
      hexValAt_at _ _ p.length (lfChar :: (p ++ ([crChar, lfChar] ++ encodeChunks ps2)))
        (by rw [hdrop4, hE])
    have hElen : (encodeChunks (p :: ps2)).length =
        (hexStr p.length).length + 2 + p.length + 2 + (encodeChunks ps2).length := by
      rw [hE]
      simp
      omega
    have hblen : (headers ++ [crChar, lfChar, crChar, lfChar] ++
        encodeChunks (p :: ps2)).length =
        headers.length + 4 + (encodeChunks (p :: ps2)).length := by
      simp
      omega
    have hm2x : headers.length + 4 - 2 = headers.length + 2 := by omega
    have hbufA : headers ++ [crChar, lfChar, crChar, lfChar] ++ encodeChunks (p :: ps2) =
        (headers ++ [crChar, lfChar, crChar, lfChar] ++ hexStr p.length ++
          [crChar, lfChar] ++ p) ++ [crChar, lfChar] ++ encodeChunks ps2 := by
      rw [hE]
      simp
    have hAlen : (headers ++ [crChar, lfChar, crChar, lfChar] ++ hexStr p.length ++
        [crChar, lfChar] ++ p).length =
        headers.length + (hexStr p.length).length + p.length + 6 := by
      simp
      omega
    rw [dechunkLoop, hs]
    simp only [hval, hm2x]
    rw [if_neg (by omega)]
    rw [if_pos trivial]
    rw [show headers.length + 2 + p.length + (2 + (hexStr p.length).length + 2) + 2 =
      (headers ++ [crChar, lfChar, crChar, lfChar] ++ hexStr p.length ++
        [crChar, lfChar] ++ p).length + 2 from by rw [hAlen]; omega]
    rw [hbufA]
    rw [dechunkLoop_rest ps2 f _ (fun q hq => hps q (by simp [hq]))
      (by simp only [List.length_cons] at hfuel; omega)]
    simp

/-- C4, witness for the amended theorem on a concrete two-chunk body. -/
theorem C4_witness :
    dechunkLoop 3 ("HTTP/1.1 200 OK".data ++ [crChar, lfChar, crChar, lfChar] ++
        encodeChunks ["abc".data, "def".data]) (("HTTP/1.1 200 OK".data).length + 4) true
      = "HTTP/1.1 200 OK".data ++ [crChar, lfChar, crChar, lfChar] ++
          hexStr (((["abc".data, "def".data] : List (List Char)).headD []).length) ++
          [crChar, lfChar] ++
          (["abc".data, "def".data] : List (List Char)).flatten ++ [crChar, lfChar] :=
  C4_theorem ("HTTP/1.1 200 OK".data) ["abc".data, "def".data] 3
    (by decide) (by decide)

/- ==================================================================
C5: manifest loading.
================================================================== -/

theorem set_append_right (X Y : List Char) (i : Nat) (c : Char) :
    (X ++ Y).set (X.length + i) c = X ++ Y.set i c := by
  induction X with
  | nil => simp
  | cons x xs ih => simp [List.set, Nat.succ_add, ih]

theorem set_zero (l : List Char) (c : Char) (h : l ≠ []) :
    l.set 0 c = c :: l.tail := by
  cases l with
  | nil => exact absurd rfl h
  | cons x xs => rfl

theorem charAt_mem (l : List Char) (i : Nat) (h : i < l.length) : charAt l i ∈ l := by
  rw [charAt, List.getD_eq_getElem l nulChar h]
  exact List.getElem_mem h

/-- The manifest parse loop on a buffer whose unread suffix is a
well-formed manifest image with md5 fields of at least 32 bytes: each
line is split at its tab and newline, the newline and the byte at
offset 32 of the line are overwritten with NUL, and the pair
(path, first 32 bytes of the md5 field) is inserted — nothing is
validated and longer md5 fields are silently truncated. -/
theorem loadLoop_spec : ∀ (lines : List (List Char × List Char)) (fuel : Nat)
    (b : List Char) (pos : Nat) (acc : List (List Char × List Char)),
    (∀ mp ∈ lines, 32 ≤ mp.1.length ∧ (∀ c ∈ mp.1, c ≠ nulChar ∧ c ≠ tabChar) ∧
      (∀ c ∈ mp.2, c ≠ nulChar ∧ c ≠ lfChar)) →
    b.drop pos = encodeManifest lines →
    fuel ≥ lines.length + 1 →
    loadLoop fuel b pos acc =
      Except.ok (lines.foldl (fun a mp => rbInsert a mp.2 (mp.1.take 32)) acc) := by
  intro lines
  induction lines with
  | nil =>
    intro fuel b pos acc hwf hdrop hfuel
    obtain ⟨f, rfl⟩ : ∃ f, fuel = f + 1 := ⟨fuel - 1, by omega⟩
    have hle : b.length ≤ pos := by
      rw [← List.drop_eq_nil_iff]
      exact hdrop
    rw [loadLoop, if_pos (charAt_oob b pos hle)]
    rfl
  | cons mp rest ih =>
    intro fuel b pos acc hwf hdrop hfuel
    obtain ⟨f, rfl⟩ : ∃ f, fuel = f + 1 := ⟨fuel - 1, by omega⟩
    obtain ⟨m, p⟩ := mp
    have hm32 : 32 ≤ m.length := (hwf (m, p) (by simp)).1
    have hmc : ∀ c ∈ m, c ≠ nulChar ∧ c ≠ tabChar := (hwf (m, p) (by simp)).2.1
    have hpc : ∀ c ∈ p, c ≠ nulChar ∧ c ≠ lfChar := (hwf (m, p) (by simp)).2.2
    have hdropE : b.drop pos =
        m ++ tabChar :: (p ++ lfChar :: encodeManifest rest) := by
      rw [hdrop, encodeManifest]
      simp
    have hlenb : b.length - pos = m.length + p.length + 2 + (encodeManifest rest).length := by
      have := congrArg List.length hdropE
      rw [List.length_drop] at this
      rw [this]
      simp
      omega
    have hposle : pos + 34 ≤ b.length := by
      have h2 : 0 < (b.drop pos).length := by
        rw [hdropE]
        simp
      rw [List.length_drop] at h2
      omega
    have hc0 : charAt b pos ≠ nulChar := by
      have h1 : charAt b pos = charAt (b.drop pos) 0 := by
        rw [charAt_drop, Nat.add_zero]
      rw [h1, hdropE, charAt_append_left _ _ 0 (by omega)]
      exact (hmc _ (charAt_mem m 0 (by omega))).1
    have htab : strchrFrom b pos tabChar = some (pos + m.length) := by
      rw [strchrFrom, hdropE, strchrAux_append m _ tabChar (by decide) hmc]
      simp [Nat.add_comm]
    have hdropP : b.drop (pos + m.length + 1) = p ++ lfChar :: encodeManifest rest := by
      have h1 : b.drop (pos + m.length + 1) = (b.drop pos).drop (m.length + 1) := by
        rw [List.drop_drop]
        congr 1
      rw [h1, hdropE]
      rw [show m ++ tabChar :: (p ++ lfChar :: encodeManifest rest) =
        (m ++ [tabChar]) ++ (p ++ lfChar :: encodeManifest rest) from by simp]
      exact List.drop_left' (by simp)
    have hlf : strchrFrom b (pos + m.length + 1) lfChar =
        some (pos + m.length + 1 + p.length) := by
      rw [strchrFrom, hdropP, strchrAux_append p _ lfChar (by decide) hpc]
      simp [Nat.add_comm]
    have hguard : ¬ b.length < pos + 32 := by omega
    have hset1 : (b.set (pos + m.length + 1 + p.length) nulChar).drop pos =
        (m ++ tabChar :: p) ++ nulChar :: encodeManifest rest := by
      rw [List.drop_set, if_neg (by omega), hdropE]
      rw [show m ++ tabChar :: (p ++ lfChar :: encodeManifest rest) =
        (m ++ tabChar :: p) ++ lfChar :: encodeManifest rest from by simp]
      rw [show pos + m.length + 1 + p.length - pos = (m ++ tabChar :: p).length + 0 from by
        simp
        omega]
      rw [set_append_right]
      rfl
    have hset2 : ((b.set (pos + m.length + 1 + p.length) nulChar).set (pos + 32)
        nulChar).drop pos =
        m.take 32 ++ nulChar ::
          (m.drop 32 ++ tabChar :: (p ++ nulChar :: encodeManifest rest)).tail := by
      rw [List.drop_set, if_neg (by omega), hset1]
      rw [show (m ++ tabChar :: p) ++ nulChar :: encodeManifest rest =
        m.take 32 ++ (m.drop 32 ++ tabChar :: (p ++ nulChar :: encodeManifest rest)) from by
        conv_lhs => rw [← List.take_append_drop 32 m]
        simp only [List.append_assoc, List.cons_append]]
      rw [show pos + 32 - pos = (m.take 32).length + 0 from by
        rw [List.length_take]
        omega]
      rw [set_append_right, set_zero _ _ (by simp)]
    have hmd5 : cstrFrom ((b.set (pos + m.length + 1 + p.length) nulChar).set (pos + 32)
        nulChar) pos = m.take 32 := by
      rw [cstrFrom, hset2]
      exact cstr_of_prefix _ _ (fun c hc => (hmc c (List.take_subset 32 m hc)).1)
    have hpathdrop : ((b.set (pos + m.length + 1 + p.length) nulChar).set (pos + 32)
        nulChar).drop (pos + m.length + 1) = p ++ nulChar :: encodeManifest rest := by
      rw [List.drop_set_of_lt _ _ (by omega)]
      rw [List.drop_set, if_neg (by omega), hdropP]
      rw [show pos + m.length + 1 + p.length - (pos + m.length + 1) = p.length + 0 from by
        omega]
      rw [set_append_right]
      rfl
    have hpath : cstrFrom ((b.set (pos + m.length + 1 + p.length) nulChar).set (pos + 32)
        nulChar) (pos + m.length + 1) = p := by
      rw [cstrFrom, hpathdrop]
      exact cstr_of_prefix _ _ (fun c hc => (hpc c hc).1)
    have hnext : ((b.set (pos + m.length + 1 + p.length) nulChar).set (pos + 32)
        nulChar).drop (pos + m.length + 1 + p.length + 1) = encodeManifest rest := by
      rw [List.drop_set_of_lt _ _ (by omega), List.drop_set_of_lt _ _ (by omega)]
      rw [show pos + m.length + 1 + p.length + 1 = pos + (m.length + 1 + p.length + 1) from by
        omega]
      rw [← List.drop_drop, hdropE]
      rw [show m ++ tabChar :: (p ++ lfChar :: encodeManifest rest) =
        (m ++ tabChar :: (p ++ [lfChar])) ++ encodeManifest rest from by simp]
      apply List.drop_left'
      simp
      omega
    rw [loadLoop, if_neg hc0]
    simp only [htab, hlf]
    rw [if_neg hguard]
    rw [hmd5, hpath]
    rw [ih f _ (pos + m.length + 1 + p.length + 1) (rbInsert acc p (m.take 32))
      (fun q hq => hwf q (by simp [hq])) hnext
      (by simp only [List.length_cons] at hfuel; omega)]
    rw [List.foldl_cons]

theorem encodeManifest_len_ge (lines : List (List Char × List Char)) :
    lines.length ≤ (encodeManifest lines).length := by
  induction lines with
  | nil => simp [encodeManifest]
  | cons mp rest ih =>
    rw [encodeManifest]
    simp
    omega

/-- C5, counterexample.  The claim requires any line whose md5 field is
not exactly 32 hex characters to be fatal; the loader validates nothing:
a line with a 33-character md5 field is accepted and silently inserted
with the field truncated to its first 32 bytes. -/
theorem C5_counterexample :
    load_known_files (List.replicate 33 (Char.ofNat 97) ++ [tabChar] ++
        [Char.ofNat 112] ++ [lfChar]) =
      Except.ok [([Char.ofNat 112], List.replicate 32 (Char.ofNat 97))] ∧
    (List.replicate 33 (Char.ofNat 97)).length ≠ 32 :=
  ⟨by rfl, by decide⟩

/-- C5, amended: load_known_files performs no validation.  Each line is
split at its first tab and the following newline; the md5 stored for the
path is the first 32 bytes of the line (md5 fields longer than 32 bytes
are silently truncated, never rejected); a missing tab or newline is a
null-pointer dereference (undefined behaviour), and an md5 field ending
within 32 bytes of the buffer end makes the terminator write go past
the allocation — neither is a diagnosed failure.  Stated for buffers of
well-formed lines with md5 fields of at least 32 bytes. -/
theorem C5_theorem (lines : List (List Char × List Char))
    (hwf : ∀ mp ∈ lines, 32 ≤ mp.1.length ∧ (∀ c ∈ mp.1, c ≠ nulChar ∧ c ≠ tabChar) ∧
      (∀ c ∈ mp.2, c ≠ nulChar ∧ c ≠ lfChar)) :
    load_known_files (encodeManifest lines) =
      Except.ok (lines.foldl (fun a mp => rbInsert a mp.2 (mp.1.take 32)) []) := by
  rw [load_known_files]
  exact loadLoop_spec lines _ _ 0 [] hwf (by simp)
    (by have := encodeManifest_len_ge lines; omega)

/-- C5, witness: one well-formed manifest line with a 32-byte md5. -/
theorem C5_witness :
    load_known_files (encodeManifest [(List.replicate 32 (Char.ofNat 97),
        [Char.ofNat 120])]) =
      Except.ok (([(List.replicate 32 (Char.ofNat 97), [Char.ofNat 120])] :
          List (List Char × List Char)).foldl
        (fun a mp => rbInsert a mp.2 (mp.1.take 32)) []) :=
  C5_theorem _ (by decide)

/- ==================================================================
C6: the check-path directory test.
================================================================== -/

/-- C6: the claim says a check-path reply whose second group reports a
kind other than dir is fatal.  The guard at svnup.c:2434 combines its
two strcmp tests with logical AND, so whenever the first group is the
standard success preamble the second is never examined: the reply
"( success ( ( ) 0: ) )" NUL "( success ( file ) ) " passes the guard
even though its kind group is file, not dir. -/
theorem C6_theorem :
    checkPathGuard ("( success ( ( ) 0: ) )".data ++ [nulChar] ++
        "( success ( file ) ) ".data) = true ∧
      cstrFrom ("( success ( ( ) 0: ) )".data ++ [nulChar] ++
        "( success ( file ) ) ".data) 23 ≠ "( success ( dir ) ) ".data := by
  decide

/- ==================================================================
C7: manifest replacement.
================================================================== -/

/-- C7, counterexample.  main removes the old manifest first and renames
known_files.new over it afterwards (svnup.c:2758-2760), so the trace
contains an intermediate state in which nothing exists at the manifest
path while the new manifest still sits at its temporary name. -/
theorem C7_counterexample :
    (⟨none, some ("new".data)⟩ : ManifestFs) ∈
        finalizeTrace ⟨some ("old".data), some ("new".data)⟩ ∧
      (⟨none, some ("new".data)⟩ : ManifestFs).atFinal = none := by
  decide

/-- C7, amended: the finalization is remove(known_files) followed by the
atomic rename(known_files.new, known_files); the rename itself is a
single atomic step and an interruption before the remove leaves the old
manifest intact, but between the remove and the rename there is one
state with no manifest at the final path (the new manifest then still
exists under its temporary name). -/
theorem C7_theorem (a b : List Char) :
    finalizeTrace ⟨some a, some b⟩ =
      [⟨some a, some b⟩, ⟨none, some b⟩, ⟨some b, none⟩] := by
  simp [finalizeTrace, removeOldStep, renameNewStep]

/- ==================================================================
C8: retry budgets.
================================================================== -/

theorem retrySim_ok (n : Nat) : ∀ t : Int, t + n ≤ 5 → retrySim t n = (n + 1, false) := by
  induction n with
  | zero => intro t ht; rfl
  | succ m ih =>
    intro t ht
    rw [retrySim, if_neg (by omega), ih (t + 1) (by omega)]

theorem retrySim_fatal (k : Nat) : ∀ n : Nat, retrySim (5 - (k : Int)) (n + k + 1) = (k + 1, true) := by
  induction k with
  | zero =>
    intro n
    rw [retrySim, if_pos (by omega)]
  | succ j ih =>
    intro n
    rw [retrySim, if_neg (by omega)]
    have h2 : (5 : Int) - ((j + 1 : Nat) : Int) + 1 = 5 - (j : Nat) := by push_cast; omega
    have h3 : n + (j + 1) = n + j + 1 := by omega
    rw [h2, h3, ih n]

/-- C8, counterexample.  process_report_svn initializes its retry
counter to -1 (svnup.c:1352), so six consecutive failures of the same
command still produce a seventh transmission (six retransmissions)
without the fatal exit, while the claim allows at most five
retransmissions with the sixth failure fatal (the behaviour of the
try = 0 sites). -/
theorem C8_counterexample :
    retrySim (-1) 6 = (7, false) ∧ retrySim 0 6 = (6, true) := by
  decide

/-- C8, amended: at the try = 0 sites (process_command_svn,
process_command_http, get_files) n consecutive failures give n + 1
transmissions when n ≤ 5 and the sixth failure is fatal after exactly 6
transmissions (5 retransmissions); in process_report_svn the counter
starts at -1, so up to 6 retransmissions occur and only the seventh
failure is fatal. -/
theorem C8_theorem (n : Nat) :
    retrySim 0 n = (if n ≤ 5 then (n + 1, false) else (6, true)) ∧
    retrySim (-1) n = (if n ≤ 6 then (n + 1, false) else (7, true)) := by
  constructor
  · by_cases h : n ≤ 5
    · rw [if_pos h]; exact retrySim_ok n 0 (by omega)
    · rw [if_neg h]
      have h2 := retrySim_fatal 5 (n - 6)
      have h3 : n - 6 + 5 + 1 = n := by omega
      have h4 : (5 : Int) - ((5 : Nat) : Int) = 0 := by norm_num
      rw [h3, h4] at h2
      exact h2
  · by_cases h : n ≤ 6
    · rw [if_pos h]; exact retrySim_ok n (-1) (by omega)
    · rw [if_neg h]
      have h2 := retrySim_fatal 6 (n - 7)
      have h3 : n - 7 + 6 + 1 = n := by omega
      have h4 : (5 : Int) - ((6 : Nat) : Int) = -1 := by norm_num
      rw [h3, h4] at h2
      exact h2

/- ==================================================================
C9: sanitize_svn_date.
================================================================== -/

/-- C9: on a well-formed svn date the function rewrites in place to
"YYYY-MM-DD HH:MM:SS" as claimed; but on a date lacking the T (and
likewise lacking the dot) the strchr result is NULL and the very next
store dereferences it — undefined behaviour without any diagnostic —
whereas the claim (and the spec's intent) requires rejection with a
diagnostic.  The none value models the null-pointer dereference. -/
theorem C9_theorem :
    sanitize_svn_date ("2020-11-10T09:23:51.711212Z".data) =
        some ("2020-11-10 09:23:51".data) ∧
      sanitize_svn_date ("2020-11-10 09:23:51.711212Z".data) = none ∧
      sanitize_svn_date ("2020-11-10T09:23:51Z".data) = none := by
  decide

/- ==================================================================
C10: save_file on special entries.
================================================================== -/

/-- C10: with special set, a body not beginning with "link " performs no
filesystem action and returns 0 without error; and even when the body is
a link and the symlink is created successfully (after removing any
existing file), the function still returns 0, because its saved = 1
assignment lies in the symlink-failure block after the noreturn err
call (svnup.c:1187) and is unreachable. -/
theorem C10_theorem (executable : Bool) (body : List Char)
    (fileExists removeFails symlinkFails openFails : Bool) :
    (body.take 5 ≠ "link ".data →
      save_file true executable body fileExists removeFails symlinkFails openFails =
        Except.ok ⟨false, []⟩) ∧
    (body.take 5 = "link ".data → (fileExists = true → removeFails = false) →
      symlinkFails = false →
      save_file true executable body fileExists removeFails symlinkFails openFails =
        Except.ok ⟨false,
          (if fileExists then [FsAction.removed] else []) ++
            [FsAction.symlinked (body.drop 5)]⟩) := by
  constructor
  · intro hnl
    rw [save_file, if_pos rfl, if_neg hnl]
  · intro hl hfr hsf
    rw [save_file, if_pos rfl, if_pos hl]
    cases fileExists with
    | false =>
      rw [if_neg (by simp), hsf, if_neg (by simp)]
    | true =>
      rw [hfr rfl, hsf, if_neg (by simp), if_neg (by simp)]

/-- C10, witness: a special entry whose body is not a link body. -/
theorem C10_witness :
    save_file true false ("somebody".data) false false false false =
      Except.ok ⟨false, []⟩ :=
  (C10_theorem false ("somebody".data) false false false false).1 (by decide)

end Svnup
